import Mathlib

/-!
Shallow embedding of the kodak image library (src/src/lib.rs).

Modelling conventions:
  - `u32` values are modelled as `Nat`. Subtraction is modelled as checked
    subtraction (`checkedSub`), because `u32` subtraction underflows at small,
    claim-relevant inputs; in a debug build the Rust code panics there (in a
    release build the wrapped value makes the subsequent assertion fail, which
    also panics). Addition and multiplication are modelled as exact `Nat`
    arithmetic; their overflow needs coordinates near `2^32`, and theorems that
    quantify over indices carry explicit representability bounds instead.
  - Rust panics (failed `assert!`, underflow, out-of-range slice index, failed
    `unwrap`/`expect`, division by zero) are modelled as the error value
    `KErr.panicked` of an `Except` monad; a returned `Err` value is modelled as
    `KErr.oob`.
  - The `u32` conversion in `Loc::from_index` (which panics when the index does
    not fit) is modelled by the explicit bound `u32Bound`.
  - PNG encode/decode and file IO are outside the modelled core; the debug
    print in `Image::overlay` has no effect on the returned value and is
    dropped.
-/

set_option maxRecDepth 16384

namespace Kodak

/-- Failure modes of the Rust code: `oob` models a returned recoverable
`Err` value, `panicked` models a Rust panic. -/
inductive KErr where
  | oob
  | panicked
  deriving DecidableEq

/-- Result type used for the embedded operations. -/
abbrev KRes (α : Type) := Except KErr α

/-- Decidable equality for `Except` values, used to evaluate the embedding on
concrete inputs. -/
instance instDecEqExcept {ε α : Type} [DecidableEq ε] [DecidableEq α] :
    DecidableEq (Except ε α) := fun x y =>
  match x, y with
  | .ok a, .ok b => if h : a = b then .isTrue (by rw [h]) else .isFalse (by simp [h])
  | .ok _, .error _ => .isFalse (by simp)
  | .error _, .ok _ => .isFalse (by simp)
  | .error e, .error f => if h : e = f then .isTrue (by rw [h]) else .isFalse (by simp [h])

/-- Bound of the `u32` type: 2 ^ 32. -/
def u32Bound : Nat := 4294967296

/-- Checked `u32` subtraction: `a - b` panics on underflow (debug semantics;
a release build would wrap and fail slightly later, also with a panic). -/
def checkedSub (a b : Nat) : KRes Nat :=
  if b ≤ a then pure (a - b) else throw .panicked

/-- Model of the Rust `assert!` macro. -/
def assertRs (b : Bool) : KRes Unit :=
  if b then pure () else throw .panicked

/-- Model of `Result::unwrap`: a recoverable error becomes a panic. -/
def unwrapRs {α : Type} : KRes α → KRes α
  | .ok a => pure a
  | .error _ => throw .panicked

/-- `Loc`: a location on an image (fields `x`, `y`, both `u32`). -/
structure Loc where
  x : Nat
  y : Nat
  deriving DecidableEq

/-- `Dim`: dimensions of an image (fields `w`, `h`, both `u32`). -/
structure Dim where
  w : Nat
  h : Nat
  deriving DecidableEq

/-- `Region`: a top-left `Loc` plus a `Dim`. -/
structure Region where
  l : Loc
  d : Dim
  deriving DecidableEq

/-- `Colour`: three 8-bit channels. -/
structure Colour where
  r : Nat
  g : Nat
  b : Nat
  deriving DecidableEq

/-- `Colour::BLACK`. -/
def Colour.BLACK : Colour := ⟨0, 0, 0⟩

/-- `Colour::WHITE`. -/
def Colour.WHITE : Colour := ⟨255, 255, 255⟩

/-- `Loc::from_index`: `Loc { x: i % dimension.w, y: i / dimension.w }` after a
conversion of the index to `u32` that panics when the index does not fit;
`%` and `/` by a zero width also panic in Rust. -/
def Loc.from_index (idx : Nat) (dimension : Dim) : KRes Loc :=
  if idx < u32Bound then
    if dimension.w = 0 then throw .panicked
    else pure ⟨idx % dimension.w, idx / dimension.w⟩
  else throw .panicked

/-- `Loc::as_index`: `x + y * dimension.w`. -/
def Loc.as_index (l : Loc) (dimension : Dim) : Nat :=
  l.x + l.y * dimension.w

/-- `Loc::inside_region`: `x >= cx && x < cx + w && y >= cy && y < cy + h`. -/
def Loc.inside_region (l : Loc) (region : Region) : Bool :=
  decide (region.l.x ≤ l.x) && decide (l.x < region.l.x + region.d.w) &&
    decide (region.l.y ≤ l.y) && decide (l.y < region.l.y + region.d.h)

/-- The `Add<Dim> for Loc` impl. -/
def Loc.addDim (l : Loc) (rhs : Dim) : Loc :=
  ⟨l.x + rhs.w, l.y + rhs.h⟩

/-- The `Add for Loc` impl. -/
def Loc.addLoc (l : Loc) (rhs : Loc) : Loc :=
  ⟨l.x + rhs.x, l.y + rhs.y⟩

/-- `Dim::square`. -/
def Dim.square (side : Nat) : Dim := ⟨side, side⟩

/-- `Dim::expand`. -/
def Dim.expand (d : Dim) (amount : Nat) : Dim := ⟨d.w + amount, d.h + amount⟩

/-- `Region::from_top_left`. -/
def Region.from_top_left (dim : Dim) : Region := ⟨⟨0, 0⟩, dim⟩

/-- The `Image` struct: width, height and a flat pixel vector. -/
structure Image where
  width : Nat
  height : Nat
  pixels : List Colour
  deriving DecidableEq

/-- `Image::blank`: all pixels `BLACK`. -/
def Image.blank (dimension : Dim) : Image :=
  ⟨dimension.w, dimension.h, List.replicate (dimension.w * dimension.h) Colour.BLACK⟩

/-- `Image::blank_with_colour`. -/
def Image.blank_with_colour (dimension : Dim) (colour : Colour) : Image :=
  ⟨dimension.w, dimension.h, List.replicate (dimension.w * dimension.h) colour⟩

/-- `Image::get_dimensions`. -/
def Image.get_dimensions (img : Image) : Dim := ⟨img.width, img.height⟩

/-- `Image::as_region`. -/
def Image.as_region (img : Image) : Region := ⟨⟨0, 0⟩, img.get_dimensions⟩

/-- `Image::get_pixel`: an out-of-bounds location is a recoverable error, and
the pixel is read at index `loc.as_index` (a Rust index expression, which
panics when out of range). -/
def Image.get_pixel (img : Image) (loc : Loc) : KRes Colour :=
  if !(loc.inside_region img.as_region) then throw .oob
  else
    match img.pixels.get? (loc.as_index img.get_dimensions) with
    | some c => pure c
    | none => throw .panicked

/-- `Image::fill`: `vec![colour; self.pixels.len()]`. -/
def Image.fill (img : Image) (colour : Colour) : Image :=
  { img with pixels := List.replicate img.pixels.length colour }

/-- Helper for `enumerate().map(...)` pipelines: applies a fallible function to
every element together with its index, in order, stopping at the first panic. -/
def enumMapM (f : Nat → Colour → KRes Colour) : Nat → List Colour → KRes (List Colour)
  | _, [] => pure []
  | i, c :: rest => do
    let c2 ← f i c
    let rest2 ← enumMapM f (i + 1) rest
    pure (c2 :: rest2)

/-- Helper for `enumerate().filter(...)` pipelines: keeps the elements whose
index satisfies the fallible predicate, in order, stopping at the first panic. -/
def enumFilterM (f : Nat → KRes Bool) : Nat → List Colour → KRes (List Colour)
  | _, [] => pure []
  | i, c :: rest => do
    let keep ← f i
    let rest2 ← enumFilterM f (i + 1) rest
    pure (if keep then c :: rest2 else rest2)

/-- `Image::fill_region`: map over the enumerated pixels, replacing a pixel by
`colour` exactly when the `Loc` recovered through `Loc::from_index` lies inside
the region. -/
def Image.fill_region (img : Image) (region : Region) (colour : Colour) : KRes Image := do
  let new_pixels ← enumMapM
    (fun i c => do
      let l ← Loc.from_index i img.get_dimensions
      pure (if l.inside_region region then colour else c))
    0 img.pixels
  pure { img with pixels := new_pixels }

/-- `Image::crop_unclamped`: asserts that the top-left corner and the far
corner (`region.l + region.d`) lie inside the image, then keeps the pixels
whose recovered `Loc` lies inside the region and installs the region dimension
as the new image dimension. -/
def Image.crop_unclamped (img : Image) (region : Region) : KRes Image := do
  let new_width := region.d.w
  let new_height := region.d.h
  assertRs (region.l.inside_region img.as_region)
  assertRs ((region.l.addDim region.d).inside_region img.as_region)
  let px ← enumFilterM
    (fun i => do
      let l ← Loc.from_index i img.get_dimensions
      pure (l.inside_region region))
    0 img.pixels
  pure ⟨new_width, new_height, px⟩

/-- `Image::crop`: a top-left corner outside the image is a recoverable error;
when the far corner is outside the image the region dimension is replaced by
`(width - region.d.w, height - region.d.h)` (the subtractions are `u32`
subtractions) before delegating to `crop_unclamped`. -/
def Image.crop (img : Image) (region : Region) : KRes Image :=
  if !(region.l.inside_region img.as_region) then
    throw .oob
  else if !((region.l.addDim region.d).inside_region img.as_region) then do
    let new_width ← checkedSub img.width region.d.w
    let new_height ← checkedSub img.height region.d.h
    img.crop_unclamped { region with d := ⟨new_width, new_height⟩ }
  else
    img.crop_unclamped region

/-- Checked write into the working pixel vector: a Rust index assignment, which
panics when the index is out of range. -/
def listSetChecked (l : List Colour) (i : Nat) (c : Colour) : KRes (List Colour) :=
  if i < l.length then pure (l.set i c) else throw .panicked

/-- The pixel-copy loop of `Image::overlay`: for every enumerated pixel of the
cropped image, recover its `Loc`, translate by the offset, and overwrite the
corresponding entry of the working copy. -/
def overlayLoop (croppedDims selfDims : Dim) (offset : Loc) :
    Nat → List Colour → List Colour → KRes (List Colour)
  | _, [], working => pure working
  | i, c :: rest, working => do
    let locOnOther ← Loc.from_index i croppedDims
    let locOnOriginal := locOnOther.addLoc offset
    let working2 ← listSetChecked working (locOnOriginal.as_index selfDims) c
    overlayLoop croppedDims selfDims offset (i + 1) rest working2

/-- `Image::overlay`: computes the remaining extent with `u32` subtractions,
crops `other` to that extent anchored at the origin (with `unwrap` on the
result of `crop`), then writes every pixel of the cropped image into a working
copy of the pixel vector of the receiver. -/
def Image.overlay (img : Image) (other : Image) (offset : Loc) : KRes Image := do
  let cw ← checkedSub img.width offset.x
  let ch ← checkedSub img.height offset.y
  let cropped ← unwrapRs (other.crop (Region.from_top_left ⟨cw, ch⟩))
  let working ← overlayLoop cropped.get_dimensions img.get_dimensions offset
    0 cropped.pixels img.pixels
  pure { img with pixels := working }

/-! Basic reduction lemmas for the embedded result monad. -/

@[simp]
theorem kres_pure {α : Type} (a : α) : (pure a : KRes α) = .ok a := rfl

@[simp]
theorem kres_bind_ok {α β : Type} (a : α) (f : α → KRes β) :
    ((Except.ok a : KRes α) >>= f) = f a := rfl

@[simp]
theorem kres_bind_pure {α β : Type} (a : α) (f : α → KRes β) :
    ((pure a : KRes α) >>= f) = f a := rfl

@[simp]
theorem kres_bind_error {α β : Type} (e : KErr) (f : α → KRes β) :
    ((Except.error e : KRes α) >>= f) = .error e := rfl

@[simp]
theorem kres_throw {α : Type} (e : KErr) : (throw e : KRes α) = .error e := rfl

@[simp]
theorem assertRs_true : assertRs true = pure () := rfl

@[simp]
theorem assertRs_false : assertRs false = throw .panicked := rfl

theorem checkedSub_of_le {a b : Nat} (h : b ≤ a) : checkedSub a b = .ok (a - b) := by
  simp [checkedSub, h]

@[simp]
theorem checkedSub_zero (a : Nat) : checkedSub a 0 = .ok a := by
  simp [checkedSub]

@[simp]
theorem checkedSub_self (a : Nat) : checkedSub a a = .ok 0 := by
  simp [checkedSub]

theorem from_index_ok {idx : Nat} {d : Dim} (h1 : idx < u32Bound) (h2 : d.w ≠ 0) :
    Loc.from_index idx d = .ok ⟨idx % d.w, idx / d.w⟩ := by
  simp [Loc.from_index, h1, h2]

theorem inside_region_iff (l : Loc) (r : Region) :
    l.inside_region r = true ↔
      (r.l.x ≤ l.x ∧ l.x < r.l.x + r.d.w ∧ r.l.y ≤ l.y ∧ l.y < r.l.y + r.d.h) := by
  simp [Loc.inside_region, and_assoc]

theorem rowmajor_index_lt {x y w h : Nat} (hx : x < w) (hy : y < h) :
    x + y * w < w * h :=
  calc x + y * w < w + y * w := Nat.add_lt_add_right hx (y * w)
    _ = (y + 1) * w := by ring
    _ ≤ h * w := Nat.mul_le_mul_right w hy
    _ = w * h := Nat.mul_comm h w

/-! Characterisations of the enumerate-map, enumerate-filter and overlay
loops. -/

theorem enumMapM_ok_length (f : Nat → Colour → KRes Colour) :
    ∀ (l : List Colour) (n : Nat) (m : List Colour),
      enumMapM f n l = .ok m → m.length = l.length := by
  intro l
  induction l with
  | nil =>
    intro n m h
    simp only [enumMapM, kres_pure] at h
    injection h with h
    simp [← h]
  | cons c rest ih =>
    intro n m h
    simp only [enumMapM] at h
    cases hf : f n c with
    | error e => rw [hf, kres_bind_error] at h; cases h
    | ok c2 =>
      rw [hf, kres_bind_ok] at h
      cases hr : enumMapM f (n + 1) rest with
      | error e => rw [hr, kres_bind_error] at h; cases h
      | ok rest2 =>
        rw [hr, kres_bind_ok, kres_pure] at h
        injection h with h
        rw [← h]
        simp [ih (n + 1) rest2 hr]

theorem enumMapM_ok_of (f : Nat → Colour → KRes Colour) (g : Nat → Colour → Colour) :
    ∀ (l : List Colour) (n : Nat),
      (∀ i c, n ≤ i → i < n + l.length → f i c = .ok (g i c)) →
      ∃ m, enumMapM f n l = .ok m ∧ m.length = l.length ∧
        ∀ j, j < l.length →
          m.getD j Colour.BLACK = g (n + j) (l.getD j Colour.BLACK) := by
  intro l
  induction l with
  | nil =>
    intro n _
    exact ⟨[], rfl, rfl, by intro j hj; cases hj⟩
  | cons c rest ih =>
    intro n hf
    obtain ⟨m, hm, hlen, hget⟩ := ih (n + 1)
      (fun i c2 hi1 hi2 => hf i c2 (by omega) (by simp only [List.length_cons]; omega))
    refine ⟨g n c :: m, ?_, by simp [hlen], ?_⟩
    · simp only [enumMapM, hf n c le_rfl (by simp), kres_bind_ok, hm, kres_pure]
    · intro j hj
      cases j with
      | zero => simp
      | succ j =>
        simp only [List.getD_cons_succ]
        rw [hget j (by simp only [List.length_cons] at hj; omega)]
        have he : n + (j + 1) = n + 1 + j := by omega
        rw [he]

theorem enumFilterM_ok_of_false (f : Nat → KRes Bool) :
    ∀ (l : List Colour) (n : Nat),
      (∀ i, n ≤ i → i < n + l.length → f i = .ok false) →
      enumFilterM f n l = .ok [] := by
  intro l
  induction l with
  | nil => intro n _; rfl
  | cons c rest ih =>
    intro n hf
    have h0 : f n = .ok false := hf n le_rfl (by simp)
    have hrest : enumFilterM f (n + 1) rest = .ok [] :=
      ih (n + 1) (fun i h1 h2 => hf i (by omega) (by simp only [List.length_cons]; omega))
    simp only [enumFilterM, h0, kres_bind_ok, hrest, kres_pure]
    rfl

theorem enumFilterM_ok_length (f : Nat → KRes Bool) (p : Nat → Bool)
    (hf : ∀ i b, f i = .ok b → b = p i) :
    ∀ (l : List Colour) (n : Nat) (r : List Colour),
      enumFilterM f n l = .ok r → r.length = (List.range' n l.length).countP p := by
  intro l
  induction l with
  | nil =>
    intro n r h
    simp only [enumFilterM, kres_pure] at h
    injection h with h
    simp [← h]
  | cons c rest ih =>
    intro n r h
    simp only [enumFilterM] at h
    cases hfn : f n with
    | error e => rw [hfn, kres_bind_error] at h; cases h
    | ok b =>
      rw [hfn, kres_bind_ok] at h
      cases hr : enumFilterM f (n + 1) rest with
      | error e => rw [hr, kres_bind_error] at h; cases h
      | ok rest2 =>
        rw [hr, kres_bind_ok, kres_pure] at h
        injection h with h
        have hb : b = p n := hf n b hfn
        have hlen := ih (n + 1) rest2 hr
        rw [← h, hb]
        rw [List.length_cons, List.range'_succ, List.countP_cons]
        by_cases hp : p n = true
        · simp [hp, hlen]
        · simp only [Bool.not_eq_true] at hp
          simp [hp, hlen]

theorem overlayLoop_ok_length (cd sd : Dim) (off : Loc) :
    ∀ (src : List Colour) (n : Nat) (working out : List Colour),
      overlayLoop cd sd off n src working = .ok out → out.length = working.length := by
  intro src
  induction src with
  | nil =>
    intro n w out h
    simp only [overlayLoop, kres_pure] at h
    injection h with h
    rw [h]
  | cons c rest ih =>
    intro n w out h
    simp only [overlayLoop] at h
    cases hfi : Loc.from_index n cd with
    | error e => rw [hfi, kres_bind_error] at h; cases h
    | ok lo =>
      rw [hfi, kres_bind_ok] at h
      cases hsc : listSetChecked w ((lo.addLoc off).as_index sd) c with
      | error e => rw [hsc, kres_bind_error] at h; cases h
      | ok w2 =>
        rw [hsc, kres_bind_ok] at h
        have h2 := ih (n + 1) w2 out h
        have h3 : w2.length = w.length := by
          unfold listSetChecked at hsc
          split at hsc
          · injection hsc with e2; rw [← e2]; simp
          · cases hsc
        omega

/-! Counting lemmas for the pixel filter of `crop_unclamped`. -/

theorem countP_range_band (a b n : Nat) :
    (List.range n).countP (fun x => decide (a ≤ x) && decide (x < b)) =
      min b n - min a n := by
  induction n with
  | zero => simp
  | succ n ih =>
    rw [List.range_succ, List.countP_append, ih]
    simp only [List.countP_cons, List.countP_nil]
    by_cases h1 : a ≤ n <;> by_cases h2 : n < b <;> simp [h1, h2] <;> omega

theorem countP_range_row (W cx dw : Nat) (c : Bool) (hxw : cx + dw ≤ W) :
    (List.range W).countP (fun x => (decide (cx ≤ x) && decide (x < cx + dw)) && c) =
      if c then dw else 0 := by
  cases c with
  | false => simp
  | true =>
    simp only [Bool.and_true, if_true]
    rw [countP_range_band cx (cx + dw) W]
    omega

theorem countP_range_grid (W : Nat) (rg : Region) (hW : 0 < W)
    (hxw : rg.l.x + rg.d.w ≤ W) :
    ∀ Hh : Nat,
      (List.range (W * Hh)).countP (fun i => Loc.inside_region ⟨i % W, i / W⟩ rg) =
        rg.d.w * (min (rg.l.y + rg.d.h) Hh - min rg.l.y Hh) := by
  intro Hh
  induction Hh with
  | zero => simp
  | succ Hh ih =>
    rw [Nat.mul_succ, List.range_add, List.countP_append, ih, List.countP_map]
    have hcongr : ∀ x ∈ List.range W,
        (((fun i => Loc.inside_region ⟨i % W, i / W⟩ rg) ∘ (fun x => W * Hh + x)) x = true) ↔
        ((fun x => (decide (rg.l.x ≤ x) && decide (x < rg.l.x + rg.d.w)) &&
            (decide (rg.l.y ≤ Hh) && decide (Hh < rg.l.y + rg.d.h))) x = true) := by
      intro x hx
      simp only [List.mem_range] at hx
      have e1 : (W * Hh + x) % W = x := by
        rw [Nat.mul_add_mod]
        exact Nat.mod_eq_of_lt hx
      have e2 : (W * Hh + x) / W = Hh := by
        rw [Nat.mul_add_div hW]
        simp [Nat.div_eq_of_lt hx]
      simp only [Function.comp_apply, e1, e2, Loc.inside_region, Bool.and_eq_true,
        decide_eq_true_eq]
      tauto
    rw [List.countP_congr hcongr, countP_range_row W rg.l.x rg.d.w _ hxw]
    by_cases hy : rg.l.y ≤ Hh ∧ Hh < rg.l.y + rg.d.h
    · have hC : (decide (rg.l.y ≤ Hh) && decide (Hh < rg.l.y + rg.d.h)) = true := by
        simp [hy.1, hy.2]
      rw [hC]
      have hAB : min (rg.l.y + rg.d.h) (Hh + 1) - min rg.l.y (Hh + 1) =
          (min (rg.l.y + rg.d.h) Hh - min rg.l.y Hh) + 1 := by omega
      rw [hAB, Nat.mul_succ]
      simp
    · have hC : (decide (rg.l.y ≤ Hh) && decide (Hh < rg.l.y + rg.d.h)) = false := by
        simp only [Bool.and_eq_false_iff, decide_eq_false_iff_not]
        omega
      rw [hC]
      have hAB : min (rg.l.y + rg.d.h) (Hh + 1) - min rg.l.y (Hh + 1) =
          min (rg.l.y + rg.d.h) Hh - min rg.l.y Hh := by omega
      rw [hAB]
      simp

@[simp]
theorem unwrapRs_ok {α : Type} (a : α) : unwrapRs (.ok a : KRes α) = .ok a := rfl

@[simp]
theorem unwrapRs_error {α : Type} (e : KErr) :
    unwrapRs (.error e : KRes α) = .error .panicked := rfl

/-- When `crop_unclamped` succeeds on a well-formed image, the produced pixel
list has exactly `region.d.w * region.d.h` entries, the new width times the
new height. -/
theorem crop_unclamped_ok_length (img : Image) (rg : Region) (out : Image)
    (hinv : img.pixels.length = img.width * img.height)
    (h : img.crop_unclamped rg = .ok out) :
    out.pixels.length = out.width * out.height := by
  unfold Image.crop_unclamped at h
  cases hb1 : rg.l.inside_region img.as_region with
  | false => rw [hb1] at h; simp at h
  | true =>
    rw [hb1] at h
    cases hb2 : (rg.l.addDim rg.d).inside_region img.as_region with
    | false => rw [hb2] at h; simp at h
    | true =>
      rw [hb2] at h
      simp only [assertRs_true, kres_pure, kres_bind_ok] at h
      cases hpx : enumFilterM
          (fun i => Loc.from_index i img.get_dimensions >>= fun l =>
            Except.ok (l.inside_region rg)) 0 img.pixels with
      | error e => rw [hpx, kres_bind_error] at h; cases h
      | ok px =>
        rw [hpx, kres_bind_ok] at h
        injection h with h
        have hcx := (inside_region_iff rg.l img.as_region).mp hb1
        have hfar := (inside_region_iff (rg.l.addDim rg.d) img.as_region).mp hb2
        simp only [Image.as_region, Image.get_dimensions, Loc.addDim, Nat.zero_add,
          Nat.zero_le, true_and] at hcx hfar
        have hW : 0 < img.width := by omega
        have hxw : rg.l.x + rg.d.w ≤ img.width := by omega
        have hlen : px.length = (List.range' 0 img.pixels.length).countP
            (fun i => Loc.inside_region ⟨i % img.width, i / img.width⟩ rg) := by
          refine enumFilterM_ok_length _ _ ?_ img.pixels 0 px hpx
          intro i b hF
          unfold Loc.from_index at hF
          split at hF
          · split at hF
            · rw [kres_throw, kres_bind_error] at hF; cases hF
            · simp only [kres_bind_pure] at hF
              injection hF with hF
              rw [← hF]
              rfl
          · rw [kres_throw, kres_bind_error] at hF; cases hF
        rw [← h]
        simp only
        rw [hlen, ← List.range_eq_range', hinv,
          countP_range_grid img.width rg hW hxw img.height]
        have m1 : min (rg.l.y + rg.d.h) img.height = rg.l.y + rg.d.h := by omega
        have m2 : min rg.l.y img.height = rg.l.y := by omega
        rw [m1, m2]
        have m3 : rg.l.y + rg.d.h - rg.l.y = rg.d.h := by omega
        rw [m3]

/-- A successful `crop` is a successful `crop_unclamped` on some region. -/
theorem crop_ok_exists_unclamped (img : Image) (rg : Region) (out : Image)
    (h : img.crop rg = .ok out) :
    ∃ rg2, img.crop_unclamped rg2 = .ok out := by
  unfold Image.crop at h
  split at h
  · simp at h
  · split at h
    · cases hs1 : checkedSub img.width rg.d.w with
      | error e => rw [hs1, kres_bind_error] at h; cases h
      | ok nw =>
        rw [hs1, kres_bind_ok] at h
        cases hs2 : checkedSub img.height rg.d.h with
        | error e => rw [hs2, kres_bind_error] at h; cases h
        | ok nh => rw [hs2, kres_bind_ok] at h; exact ⟨_, h⟩
    · exact ⟨rg, h⟩

/-- Cropping an image to the region covering exactly its own extent takes the
clamping branch of `crop` (the far corner is not strictly inside), clamps the
dimension to `(0, 0)`, and so returns an empty `0 × 0` image. -/
theorem crop_self_region_empty (o : Image) (hw : 0 < o.width) (hh : 0 < o.height)
    (hlen : o.pixels.length ≤ u32Bound) :
    o.crop (Region.from_top_left ⟨o.width, o.height⟩) = .ok ⟨0, 0, []⟩ := by
  have hc : Loc.inside_region ⟨0, 0⟩ o.as_region = true := by
    rw [inside_region_iff]
    simp only [Image.as_region, Image.get_dimensions, Nat.zero_add, Nat.zero_le,
      true_and]
    exact ⟨hw, hh⟩
  have hfarp : ¬ (Loc.addDim ⟨0, 0⟩ ⟨o.width, o.height⟩).inside_region o.as_region = true := by
    rw [inside_region_iff]
    simp [Loc.addDim, Image.as_region, Image.get_dimensions]
  rw [Bool.not_eq_true] at hfarp
  have hfilter : enumFilterM
      (fun i => Loc.from_index i o.get_dimensions >>= fun l =>
        Except.ok (l.inside_region ⟨⟨0, 0⟩, ⟨0, 0⟩⟩)) 0 o.pixels = .ok [] := by
    refine enumFilterM_ok_of_false _ o.pixels 0 ?_
    intro i _ hi2
    rw [from_index_ok (by omega) (Nat.pos_iff_ne_zero.mp hw), kres_bind_ok]
    simp [Loc.inside_region]
  have hc2 : (Loc.addDim ⟨0, 0⟩ ⟨0, 0⟩).inside_region o.as_region = true := by
    simpa [Loc.addDim] using hc
  unfold Image.crop
  dsimp only [Region.from_top_left]
  rw [hc, hfarp]
  rw [if_neg (by decide), if_pos (by decide)]
  simp only [checkedSub_self, kres_bind_ok]
  unfold Image.crop_unclamped
  dsimp only
  rw [hc, hc2]
  simp only [assertRs_true, kres_bind_pure, kres_pure]
  rw [hfilter]
  simp only [kres_bind_ok]

/-- C1: at the 10 by 10 blank image and the region with corner (2, 2) and
dimension (9, 9), the corner is inside the image and the far corner is not,
yet `crop` returns a 1 by 1 image (the code clamps with `width - d.w`,
`height - d.h`), not the 8 by 8 image the claim requires
(`width - corner.x`, `height - corner.y`). -/
theorem c1_crop_clamp_divergence :
    Loc.inside_region ⟨2, 2⟩ (Image.blank ⟨10, 10⟩).as_region = true ∧
    Loc.inside_region (Loc.addDim ⟨2, 2⟩ ⟨9, 9⟩) (Image.blank ⟨10, 10⟩).as_region = false ∧
    Except.map Image.width ((Image.blank ⟨10, 10⟩).crop ⟨⟨2, 2⟩, ⟨9, 9⟩⟩) = .ok 1 ∧
    Except.map Image.height ((Image.blank ⟨10, 10⟩).crop ⟨⟨2, 2⟩, ⟨9, 9⟩⟩) = .ok 1 ∧
    (1 : Nat) ≠ 10 - 2 := by
  refine ⟨by decide, by decide, by decide, by decide, by decide⟩

/-- C2: the offset (0, 0) lies inside the 10 by 10 receiver, and the 5 by 5
other image fits entirely, yet `overlay` panics: `crop` inside `overlay`
reaches the clamping branch and computes `5 - 10`, which underflows. -/
theorem c2_overlay_panics_on_smaller_other :
    (⟨0, 0⟩ : Loc).x ≤ (Image.blank ⟨10, 10⟩).width ∧
    (⟨0, 0⟩ : Loc).y ≤ (Image.blank ⟨10, 10⟩).height ∧
    (Image.blank ⟨10, 10⟩).overlay (Image.blank ⟨5, 5⟩) ⟨0, 0⟩ = .error .panicked := by
  refine ⟨by decide, by decide, by decide⟩

/-- C3: the exact scenario of the claim (and of the crate's own test
`overlay_non_out_of_bounds`) panics instead of producing the composited
image: the cropping step inside `overlay` underflows on `5 - 10`. -/
theorem c3_overlay_test_scenario_panics :
    (Image.blank_with_colour (Dim.square 10) Colour.WHITE).overlay
      (Image.blank (Dim.square 5)) ⟨0, 0⟩ = .error .panicked := by
  decide

/-- C4: cropping the region anchored at (0, 0) with dimension square(100) out
of an exactly 100 by 100 image succeeds but returns a 0 by 0 image: the far
corner (100, 100) is not strictly inside the image, so the clamping branch
runs and replaces the dimension by `(100 - 100, 100 - 100)`. -/
theorem c4_crop_square100_returns_empty :
    (Image.blank ⟨100, 100⟩).crop (Region.from_top_left (Dim.square 100)) =
      .ok ⟨0, 0, []⟩ ∧ (0 : Nat) ≠ 100 := by
  constructor
  · have hlen : (Image.blank ⟨100, 100⟩).pixels.length ≤ u32Bound := by
      show (List.replicate (100 * 100) Colour.BLACK).length ≤ u32Bound
      rw [List.length_replicate]
      decide
    have h := crop_self_region_empty (Image.blank ⟨100, 100⟩) (by decide) (by decide) hlen
    have hW : (Image.blank ⟨100, 100⟩).width = 100 := rfl
    have hH : (Image.blank ⟨100, 100⟩).height = 100 := rfl
    rw [hW, hH] at h
    exact h
  · decide

/-- C6: for a dimension D and an index i below D.w * D.h that fits the u32
index conversion, `from_index` succeeds and `as_index` maps the produced
location back to i. -/
theorem c6_from_index_round_trip (D : Dim) (i : Nat)
    (hi : i < D.w * D.h) (hrep : i < u32Bound) :
    ∃ l, Loc.from_index i D = .ok l ∧ l.as_index D = i := by
  have hw : D.w ≠ 0 := by
    intro h
    rw [h] at hi
    simp at hi
  exact ⟨⟨i % D.w, i / D.w⟩, from_index_ok hrep hw, by
    simp [Loc.as_index, Nat.mod_add_div']⟩

/-- Witness for C6 at D = (3, 4), i = 7. -/
theorem c6_round_trip_witness :
    (7 : Nat) < (⟨3, 4⟩ : Dim).w * (⟨3, 4⟩ : Dim).h ∧ (7 : Nat) < u32Bound ∧
    ∃ l, Loc.from_index 7 ⟨3, 4⟩ = .ok l ∧ l.as_index ⟨3, 4⟩ = 7 :=
  ⟨by decide, by decide, c6_from_index_round_trip ⟨3, 4⟩ 7 (by decide) (by decide)⟩

/-- C7: membership of a location in a region is left-inclusive and
right-exclusive on both axes. -/
theorem c7_inside_region_boundary (l : Loc) (r : Region) :
    l.inside_region r = true ↔
      (r.l.x ≤ l.x ∧ l.x < r.l.x + r.d.w ∧ r.l.y ≤ l.y ∧ l.y < r.l.y + r.d.h) := by
  simp [Loc.inside_region, and_assoc]

/-- Destructuring a successful bind: both stages succeeded. -/
theorem kres_bind_eq_ok {α β : Type} {x : KRes α} {f : α → KRes β} {b : β}
    (h : (x >>= f) = .ok b) : ∃ a, x = .ok a ∧ f a = .ok b := by
  cases x with
  | error e => rw [kres_bind_error] at h; cases h
  | ok a => rw [kres_bind_ok] at h; exact ⟨a, rfl, h⟩

/-- C5: `get_pixel` fails with the recoverable out-of-bounds error exactly when
the location is not inside `as_region`; for a location inside, it returns the
colour stored at row-major index `x + y * width`, and that index is within the
pixel buffer, so the read cannot panic. -/
theorem c5_get_pixel_spec (img : Image) (l : Loc)
    (hinv : img.pixels.length = img.width * img.height) :
    (l.inside_region img.as_region = false → img.get_pixel l = .error .oob) ∧
    (l.inside_region img.as_region = true →
      l.as_index img.get_dimensions = l.x + l.y * img.width ∧
      l.x + l.y * img.width < img.pixels.length ∧
      img.get_pixel l = .ok (img.pixels.getD (l.x + l.y * img.width) Colour.BLACK)) := by
  constructor
  · intro h
    unfold Image.get_pixel
    rw [h, if_pos (by decide)]
    rfl
  · intro h
    have hb := (inside_region_iff l img.as_region).mp h
    simp only [Image.as_region, Image.get_dimensions, Nat.zero_add, Nat.zero_le,
      true_and] at hb
    obtain ⟨hx, hy⟩ := hb
    have hidx : l.x + l.y * img.width < img.pixels.length := by
      rw [hinv]
      exact rowmajor_index_lt hx hy
    refine ⟨rfl, hidx, ?_⟩
    unfold Image.get_pixel
    rw [h, if_neg (by decide)]
    have hq : img.pixels.get? (l.as_index img.get_dimensions) =
        some (img.pixels.getD (l.x + l.y * img.width) Colour.BLACK) := by
      have he : l.as_index img.get_dimensions = l.x + l.y * img.width := rfl
      rw [he, List.get?_eq_get hidx, List.getD_eq_get img.pixels Colour.BLACK hidx]
    rw [hq]
    rfl

/-- Witness for C5 at the 3 by 2 blank image and the location (1, 1). -/
theorem c5_get_pixel_witness :
    ((⟨1, 1⟩ : Loc).inside_region (Image.blank ⟨3, 2⟩).as_region = false →
      (Image.blank ⟨3, 2⟩).get_pixel ⟨1, 1⟩ = .error .oob) ∧
    ((⟨1, 1⟩ : Loc).inside_region (Image.blank ⟨3, 2⟩).as_region = true →
      (⟨1, 1⟩ : Loc).as_index (Image.blank ⟨3, 2⟩).get_dimensions =
        (⟨1, 1⟩ : Loc).x + (⟨1, 1⟩ : Loc).y * (Image.blank ⟨3, 2⟩).width ∧
      (⟨1, 1⟩ : Loc).x + (⟨1, 1⟩ : Loc).y * (Image.blank ⟨3, 2⟩).width <
        (Image.blank ⟨3, 2⟩).pixels.length ∧
      (Image.blank ⟨3, 2⟩).get_pixel ⟨1, 1⟩ =
        .ok ((Image.blank ⟨3, 2⟩).pixels.getD
          ((⟨1, 1⟩ : Loc).x + (⟨1, 1⟩ : Loc).y * (Image.blank ⟨3, 2⟩).width)
          Colour.BLACK)) :=
  c5_get_pixel_spec (Image.blank ⟨3, 2⟩) ⟨1, 1⟩ (by decide)

/-- C10: overlaying an image whose dimensions equal those of the receiver at
offset (0, 0) returns the receiver unchanged: the internal `crop` clamps the
overlay to a 0 by 0 extent, so the paste loop writes nothing. -/
theorem c10_overlay_full_cover_identity (img other : Image)
    (hw : 0 < img.width) (hh : 0 < img.height)
    (h1 : other.width = img.width) (h2 : other.height = img.height)
    (hlen : other.pixels.length ≤ u32Bound) :
    img.overlay other ⟨0, 0⟩ = .ok img := by
  have hcrop : other.crop (Region.from_top_left ⟨img.width, img.height⟩) =
      .ok ⟨0, 0, []⟩ := by
    have h := crop_self_region_empty other (by rw [h1]; exact hw)
      (by rw [h2]; exact hh) hlen
    rw [h1, h2] at h
    exact h
  unfold Image.overlay
  dsimp only
  simp only [checkedSub_zero, kres_bind_ok]
  rw [hcrop]
  simp only [unwrapRs_ok, kres_bind_ok]
  simp only [overlayLoop, kres_pure, kres_bind_ok]

/-- Witness for C10 at a white 2 by 2 receiver and a black 2 by 2 overlay. -/
theorem c10_overlay_witness :
    (Image.blank_with_colour ⟨2, 2⟩ Colour.WHITE).overlay (Image.blank ⟨2, 2⟩) ⟨0, 0⟩ =
      .ok (Image.blank_with_colour ⟨2, 2⟩ Colour.WHITE) :=
  c10_overlay_full_cover_identity (Image.blank_with_colour ⟨2, 2⟩ Colour.WHITE)
    (Image.blank ⟨2, 2⟩) (by decide) (by decide) (by decide) (by decide) (by decide)

/-- C8: `fill_region` keeps the dimensions of the receiver and replaces exactly
the pixels whose location, recovered through `from_index`, lies inside the
region, passing every other pixel through unchanged; in the 20 by 10 example
the pixels (9, 5) and (5, 5) stay black while (10, 5) and (15, 5) become
white. -/
theorem c8_fill_region_spec :
    (∀ (img : Image) (region : Region) (colour : Colour),
      img.pixels.length = img.width * img.height →
      img.pixels.length ≤ u32Bound →
      ∃ px, img.fill_region region colour = .ok ⟨img.width, img.height, px⟩ ∧
        px.length = img.pixels.length ∧
        ∀ j, j < img.pixels.length →
          ∃ lj, Loc.from_index j img.get_dimensions = .ok lj ∧
            px.getD j Colour.BLACK =
              (if lj.inside_region region = true then colour
               else img.pixels.getD j Colour.BLACK)) ∧
    ((Image.blank ⟨20, 10⟩).fill_region ⟨⟨10, 0⟩, ⟨10, 10⟩⟩ Colour.WHITE >>= fun i =>
      i.get_pixel ⟨9, 5⟩) = .ok Colour.BLACK ∧
    ((Image.blank ⟨20, 10⟩).fill_region ⟨⟨10, 0⟩, ⟨10, 10⟩⟩ Colour.WHITE >>= fun i =>
      i.get_pixel ⟨10, 5⟩) = .ok Colour.WHITE ∧
    ((Image.blank ⟨20, 10⟩).fill_region ⟨⟨10, 0⟩, ⟨10, 10⟩⟩ Colour.WHITE >>= fun i =>
      i.get_pixel ⟨5, 5⟩) = .ok Colour.BLACK ∧
    ((Image.blank ⟨20, 10⟩).fill_region ⟨⟨10, 0⟩, ⟨10, 10⟩⟩ Colour.WHITE >>= fun i =>
      i.get_pixel ⟨15, 5⟩) = .ok Colour.WHITE := by
  refine ⟨?_, by decide, by decide, by decide, by decide⟩
  intro img region colour hinv hbound
  by_cases hw : img.width = 0
  · have hlen0 : img.pixels.length = 0 := by
      rw [hinv, hw]
      simp
    have hpx0 : img.pixels = [] := List.length_eq_zero.mp hlen0
    refine ⟨[], ?_, by simp [hpx0], ?_⟩
    · unfold Image.fill_region
      rw [hpx0]
      rfl
    · intro j hj
      rw [hlen0] at hj
      cases hj
  · obtain ⟨m, hm, hlenm, hget⟩ := enumMapM_ok_of
      (fun i c => Loc.from_index i img.get_dimensions >>= fun l =>
        pure (if l.inside_region region then colour else c))
      (fun i c => if Loc.inside_region ⟨i % img.width, i / img.width⟩ region = true
        then colour else c)
      img.pixels 0
      (by
        intro i c _ hi
        dsimp only
        rw [from_index_ok (by omega) hw, kres_bind_ok]
        rfl)
    refine ⟨m, ?_, hlenm, ?_⟩
    · unfold Image.fill_region
      rw [hm, kres_bind_ok]
      rfl
    · intro j hj
      refine ⟨⟨j % img.width, j / img.width⟩, from_index_ok (by omega) hw, ?_⟩
      rw [hget j hj]
      simp only [Nat.zero_add]

/-- Witness for C8 at the 4 by 3 blank image, region corner (1, 1) and
dimension (2, 2), fill colour white. -/
theorem c8_fill_region_witness :
    ∃ px, (Image.blank ⟨4, 3⟩).fill_region ⟨⟨1, 1⟩, ⟨2, 2⟩⟩ Colour.WHITE =
        .ok ⟨(Image.blank ⟨4, 3⟩).width, (Image.blank ⟨4, 3⟩).height, px⟩ ∧
      px.length = (Image.blank ⟨4, 3⟩).pixels.length ∧
      ∀ j, j < (Image.blank ⟨4, 3⟩).pixels.length →
        ∃ lj, Loc.from_index j (Image.blank ⟨4, 3⟩).get_dimensions = .ok lj ∧
          px.getD j Colour.BLACK =
            (if lj.inside_region ⟨⟨1, 1⟩, ⟨2, 2⟩⟩ = true then Colour.WHITE
             else (Image.blank ⟨4, 3⟩).pixels.getD j Colour.BLACK) :=
  c8_fill_region_spec.1 (Image.blank ⟨4, 3⟩) ⟨⟨1, 1⟩, ⟨2, 2⟩⟩ Colour.WHITE
    (by decide) (by decide)

/-- C9: every image produced by the modelled operations satisfies the pixel
sequence invariant: the pixel list has exactly width times height entries.
For the fallible operations this is stated for every successful result. -/
theorem c9_length_invariant :
    (∀ d : Dim, (Image.blank d).pixels.length =
      (Image.blank d).width * (Image.blank d).height) ∧
    (∀ (d : Dim) (c : Colour), (Image.blank_with_colour d c).pixels.length =
      (Image.blank_with_colour d c).width * (Image.blank_with_colour d c).height) ∧
    (∀ (img : Image) (c : Colour), img.pixels.length = img.width * img.height →
      (img.fill c).pixels.length = (img.fill c).width * (img.fill c).height) ∧
    (∀ (img : Image) (rg : Region) (c : Colour) (out : Image),
      img.pixels.length = img.width * img.height →
      img.fill_region rg c = .ok out →
      out.pixels.length = out.width * out.height) ∧
    (∀ (img : Image) (rg : Region) (out : Image),
      img.pixels.length = img.width * img.height →
      img.crop rg = .ok out →
      out.pixels.length = out.width * out.height) ∧
    (∀ (img : Image) (rg : Region) (out : Image),
      img.pixels.length = img.width * img.height →
      img.crop_unclamped rg = .ok out →
      out.pixels.length = out.width * out.height) ∧
    (∀ (img other : Image) (off : Loc) (out : Image),
      img.pixels.length = img.width * img.height →
      img.overlay other off = .ok out →
      out.pixels.length = out.width * out.height) := by
  refine ⟨?_, ?_, ?_, ?_, ?_, ?_, ?_⟩
  · intro d
    simp [Image.blank]
  · intro d c
    simp [Image.blank_with_colour]
  · intro img c hinv
    simp [Image.fill, hinv]
  · intro img rg c out hinv h
    unfold Image.fill_region at h
    obtain ⟨np, hnp, hout⟩ := kres_bind_eq_ok h
    rw [kres_pure] at hout
    injection hout with hout
    rw [← hout]
    show np.length = img.width * img.height
    rw [enumMapM_ok_length _ img.pixels 0 np hnp, hinv]
  · intro img rg out hinv h
    obtain ⟨rg2, h2⟩ := crop_ok_exists_unclamped img rg out h
    exact crop_unclamped_ok_length img rg2 out hinv h2
  · intro img rg out hinv h
    exact crop_unclamped_ok_length img rg out hinv h
  · intro img other off out hinv h
    unfold Image.overlay at h
    obtain ⟨cw, hcw, h⟩ := kres_bind_eq_ok h
    obtain ⟨ch, hch, h⟩ := kres_bind_eq_ok h
    obtain ⟨cropped, hcr, h⟩ := kres_bind_eq_ok h
    obtain ⟨working, hwk, h⟩ := kres_bind_eq_ok h
    rw [kres_pure] at h
    injection h with h
    rw [← h]
    show working.length = img.width * img.height
    rw [overlayLoop_ok_length _ _ _ _ _ _ _ hwk, hinv]

/-- Witness for C9: the fill conjunct applied to the 3 by 2 blank image. -/
theorem c9_length_invariant_witness :
    (Image.fill (Image.blank ⟨3, 2⟩) Colour.WHITE).pixels.length =
      (Image.fill (Image.blank ⟨3, 2⟩) Colour.WHITE).width *
        (Image.fill (Image.blank ⟨3, 2⟩) Colour.WHITE).height :=
  c9_length_invariant.2.2.1 (Image.blank ⟨3, 2⟩) Colour.WHITE (by decide)

end Kodak
